import Mathlib

/-!
Verification development for the flashxroute repository (a Go JSON-RPC /
bloXroute relay client).  The Go source is shallowly embedded: pure helper
functions become Lean functions on `Nat`/`Int`/`String`/`List`, JSON values
become an inductive tree, fallible operations return `Except`/`Option`, and
the Go panic of an out-of-range index or slice is modelled as `Option.none`.
Go `int` is modelled as `Int` (the source targets 64-bit platforms); machine
overflow is irrelevant here because `strconv.ParseInt` range-checks before
any value escapes, and that check is modelled explicitly.
-/

/-! ## Wire numeric codec (src/helpers.go) -/

/-- Lowercase hexadecimal digit characters as produced by Go's `%x` verb and
`strconv.FormatInt` (digits `0`-`9` then `a`-`f`). -/
def hexDigitChar (d : Nat) : Char :=
  if d < 10 then Char.ofNat (48 + d) else Char.ofNat (87 + d)

/-- Hex digit characters of `n`, most significant first, empty for `0`:
the digit stream produced by Go's `%x` formatting of a non-negative integer. -/
def natHexChars (n : Nat) : List Char :=
  ((Nat.digits 16 n).reverse).map hexDigitChar

/-- Go `fmt.Sprintf("%x", n)` for a non-negative integer: lowercase hex
digits with no leading zeros, and the single digit `0` for zero. -/
def natToHexString (n : Nat) : String :=
  if n = 0 then "0" else ⟨natHexChars n⟩

/-- Embeds `IntToHex` (src/helpers.go line 33): `fmt.Sprintf("0x%x", i)`.
For a negative argument Go's `%x` renders a minus sign before the hex
digits of the absolute value. -/
def IntToHex (i : Int) : String :=
  if i < 0 then "0x-" ++ natToHexString i.natAbs else "0x" ++ natToHexString i.natAbs

/-- Value of one hex digit character, as accepted by `strconv.ParseInt`
with base 16 (digits, lowercase and uppercase letters). -/
def hexDigitVal (c : Char) : Option Nat :=
  if '0' ≤ c ∧ c ≤ '9' then some (c.toNat - 48)
  else if 'a' ≤ c ∧ c ≤ 'f' then some (c.toNat - 87)
  else if 'A' ≤ c ∧ c ≤ 'F' then some (c.toNat - 55)
  else none

/-- Values of a run of hex digit characters; `none` when any character is
not a hex digit (then `strconv.ParseInt` reports a syntax error). -/
def hexVals : List Char → Option (List Nat)
  | [] => some []
  | c :: cs =>
    match hexDigitVal c, hexVals cs with
    | some d, some ds => some (d :: ds)
    | _, _ => none

/-- Go `strings.TrimPrefix(value, "0x")` at character level: the two leading
characters `0x` are removed when present. -/
def trim0x (cs : List Char) : List Char :=
  if cs.take 2 = ['0', 'x'] then cs.drop 2 else cs

/-- Sign handling of `strconv.ParseInt` and of the `math/big` scanner: an
optional leading `-` or `+` is consumed and remembered. -/
def splitSign (cs : List Char) : Bool × List Char :=
  match cs with
  | c :: r => if c = '-' then (true, r) else if c = '+' then (false, r) else (false, c :: r)
  | [] => (false, [])

/-- Range check of `strconv.ParseInt` with bit size 64: a positive result
must not exceed `2^63 - 1` and a negative one must not go below `-2^63`. -/
def int64Range (neg : Bool) (n : Nat) : Except String Int :=
  if neg then
    if n ≤ 2 ^ 63 then .ok (-(n : Int)) else .error "value out of range"
  else
    if n ≤ 2 ^ 63 - 1 then .ok ((n : Int)) else .error "value out of range"

/-- Embeds `ParseInt` (src/helpers.go line 15):
`strconv.ParseInt(strings.TrimPrefix(value, "0x"), 16, 64)`.
The `0x` marker is removed when present, an optional sign is read, the rest
must be a non-empty run of hex digits, and the value must fit a 64-bit
signed integer (otherwise `strconv` reports a range error).  Character-level
list operations coincide with Go's byte-level ones on these ASCII inputs. -/
def ParseInt (value : String) : Except String Int :=
  match splitSign (trim0x value.data) with
  | (neg, ds) =>
    if ds.isEmpty then .error "invalid syntax"
    else
      match hexVals ds with
      | none => .error "invalid syntax"
      | some vs => int64Range neg (vs.foldl (fun a d => a * 16 + d) 0)

/-- Minimal big-endian base-256 byte sequence of a natural number, as
returned by Go's `big.Int.Bytes()` (empty for zero). -/
def natBytes (m : Nat) : List Nat :=
  (Nat.digits 256 m).reverse

/-- Characters of Go's `fmt.Sprintf("%x", bytes)` applied to a byte slice:
every byte renders as exactly two lowercase hex digits. -/
def bytesHexChars (m : Nat) : List Char :=
  (natBytes m).flatMap (fun b => [hexDigitChar (b / 16), hexDigitChar (b % 16)])

/-- Go `strings.TrimPrefix(s, "0")` at character level: one leading `0`
is removed when present. -/
def trimOneZero (cs : List Char) : List Char :=
  match cs with
  | c :: r => if c = '0' then r else c :: r
  | [] => []

/-- Embeds `BigToHex` (src/helpers.go line 38).  Go tests `bigInt.BitLen() == 0`,
which holds exactly for the value zero; otherwise it renders `Bytes()` with
`%x` (two hex digits per byte) and strips a single leading `0`. -/
def BigToHex (n : Int) : String :=
  if n = 0 then "0x0" else "0x" ++ ⟨trimOneZero (bytesHexChars n.natAbs)⟩

/-- Digit value accepted by the `math/big` scanner for a given base:
`0`-`9`, then `a`-`z` and `A`-`Z` for `10`-`35`, rejected when `≥` base. -/
def bigDigitVal (base : Nat) (c : Char) : Option Nat :=
  let d :=
    if '0' ≤ c ∧ c ≤ '9' then some (c.toNat - 48)
    else if 'a' ≤ c ∧ c ≤ 'z' then some (c.toNat - 87)
    else if 'A' ≤ c ∧ c ≤ 'Z' then some (c.toNat - 55)
    else none
  match d with
  | some v => if v < base then some v else none
  | none => none

/-- Maximal leading run of digits of the given base, as consumed by the
`math/big` scanner (scanning stops at the first non-digit). -/
def digitRun (base : Nat) : List Char → List Nat
  | [] => []
  | c :: r =>
    match bigDigitVal base c with
    | some d => d :: digitRun base r
    | none => []

/-- Base detection of the `math/big` scanner (base argument 0): a `0x`/`0X`
(hex), `0b`/`0B` (binary) or `0o`/`0O` (octal) marker, a bare leading `0`
meaning octal, or decimal otherwise. -/
def splitBase (cs : List Char) : Nat × List Char :=
  match cs with
  | c0 :: c1 :: r =>
    if c0 = '0' then
      if c1 = 'x' ∨ c1 = 'X' then (16, r)
      else if c1 = 'b' ∨ c1 = 'B' then (2, r)
      else if c1 = 'o' ∨ c1 = 'O' then (8, r)
      else (8, c0 :: c1 :: r)
    else (10, c0 :: c1 :: r)
  | _ => (10, cs)

/-- Embeds `ParseBigInt` (src/helpers.go line 25): `fmt.Sscan(value, &i)` for a
`big.Int`, i.e. the `math/big` scanner: an optional sign, base detection per
`splitBase`, then the maximal digit run of that base, of which at least one
digit is required.  Leading white space and underscore digit separators of
the Go scanner are not modelled (no input produced by this codec contains
them). -/
def ParseBigInt (value : String) : Except String Int :=
  match splitSign value.data with
  | (neg, cs1) =>
    match splitBase cs1 with
    | (base, cs2) =>
      let ds := digitRun base cs2
      if ds.isEmpty then .error "expected integer"
      else
        let n : Nat := ds.foldl (fun a d => a * base + d) 0
        .ok (if neg then -(n : Int) else (n : Int))

/-! ## JSON values and Go `encoding/json` unmarshaling -/

/-- Parsed JSON values.  Numbers are modelled as integers: every numeric
field of the embedded structures is an integer field in Go, and
`encoding/json` rejects fractional values for them. -/
inductive Json where
  | null
  | bool (b : Bool)
  | num (n : Int)
  | str (s : String)
  | arr (elems : List Json)
  | obj (fields : List (String × Json))

/-- ASCII lower casing of one character, the fold Go applies to struct field
tags and JSON keys when matching them. -/
def lowerChar (c : Char) : Char :=
  if 'A' ≤ c ∧ c ≤ 'Z' then Char.ofNat (c.toNat + 32) else c

/-- Case-folded characters of a JSON key or field tag. -/
def foldKey (s : String) : List Char :=
  s.data.map lowerChar

/-- Field lookup of Go `encoding/json`: a JSON key matches a struct field tag
exactly or case-insensitively, and when several keys match the same field the
last occurrence wins (keys are decoded in order, each overwriting). -/
def jsonField (fields : List (String × Json)) (key : String) : Option Json :=
  ((fields.filter (fun p => foldKey p.1 = foldKey key)).getLast?).map Prod.snd

/-- Embeds `RelayErrorResponse` (bespoke flat relay error shape
`{"error": <string>}`). -/
structure RelayErrorResponse where
  error : String
deriving DecidableEq

/-- Go `json.Unmarshal` into `RelayErrorResponse`: `null` is a no-op, an
object fills the `error` field from a JSON string (`null` or a missing key
leaves the zero value `""`), any other shape is a type error. -/
def relayErrorResponseUnmarshal : Json → Except String RelayErrorResponse
  | .null => .ok ⟨""⟩
  | .obj fs =>
    match jsonField fs "error" with
    | none => .ok ⟨""⟩
    | some (.str s) => .ok ⟨s⟩
    | some .null => .ok ⟨""⟩
    | some _ => .error "cannot unmarshal into field error of type string"
  | _ => .error "cannot unmarshal into RelayErrorResponse"

/-- Embeds `RpcError` (src/flashxroute.go line 18). -/
structure RpcError where
  Code : Int
  Message : String
deriving DecidableEq

/-- Go `json.Unmarshal` into `RpcError`: integer `code`, string `message`,
missing or `null` fields keep their zero values, mismatched types fail. -/
def rpcErrorUnmarshal : Json → Except String RpcError
  | .null => .ok ⟨0, ""⟩
  | .obj fs => do
    let code ← match jsonField fs "code" with
      | none => pure 0
      | some (.num n) => pure n
      | some .null => pure 0
      | some _ => throw "cannot unmarshal into field code of type int"
    let msg ← match jsonField fs "message" with
      | none => pure ""
      | some (.str s) => pure s
      | some .null => pure ""
      | some _ => throw "cannot unmarshal into field message of type string"
    pure ⟨code, msg⟩
  | _ => .error "cannot unmarshal into RpcError"

/-- Embeds `rpcResponse` (src/flashxroute.go line 27).  `Result` is a
`json.RawMessage`: `none` models the nil message of an absent key, and
`some .null` models the raw bytes `null`. -/
structure RpcResponse where
  ID : Int
  JSONRPC : String
  Result : Option Json
  Error : Option RpcError

/-- Go `json.Unmarshal` into `rpcResponse`: the `error` field is a pointer,
so a missing key or JSON `null` leaves it nil; any present non-null value is
decoded as an `RpcError`, and the raw `result` payload is kept verbatim. -/
def rpcResponseUnmarshal : Json → Except String RpcResponse
  | .null => .ok ⟨0, "", none, none⟩
  | .obj fs => do
    let id ← match jsonField fs "id" with
      | none => pure 0
      | some (.num n) => pure n
      | some .null => pure 0
      | some _ => throw "cannot unmarshal into field id of type int"
    let ver ← match jsonField fs "jsonrpc" with
      | none => pure ""
      | some (.str s) => pure s
      | some .null => pure ""
      | some _ => throw "cannot unmarshal into field jsonrpc of type string"
    let err ← match jsonField fs "error" with
      | none => pure none
      | some .null => pure none
      | some j => (rpcErrorUnmarshal j).map some
    pure ⟨id, ver, jsonField fs "result", err⟩
  | _ => .error "cannot unmarshal into rpcResponse"

/-! ## RPC transport (src/flashxroute.go lines 72-215) -/

/-- Failure channels of a call, per the source: a JSON decode failure of the
response body, the node's JSON-RPC error returned as an `RpcError` value
(`Call`, line 141), and the relay error produced with
`fmt.Errorf("%w: %s", ErrRelayErrorResponse, msg)`
(`CallWithBloxrouteAuthHeader`, lines 197 and 206). -/
inductive CallError where
  | decodeError (msg : String)
  | protocolError (code : Int) (message : String)
  | relayError (message : String)
deriving DecidableEq

/-- Embeds the request-envelope construction shared by `Call` (lines 92-97)
and `CallWithBloxrouteAuthHeader` (lines 149-154):
`rpcRequest{ID: 1, JSONRPC: "2.0", Method: method, Params: params[0]}`.
The source indexes `params[0]` unconditionally, so an empty variadic list
panics with an index-out-of-range before any request is built; the panic is
modelled as `none`.  Only the first parameter is placed in the `params`
field; any further parameters are ignored. -/
def rpcRequestBody (method : String) (params : List Json) : Option Json :=
  params.head?.map fun p =>
    Json.obj [("id", Json.num 1), ("jsonrpc", Json.str "2.0"),
              ("method", Json.str method), ("params", p)]

/-- Embeds the `FlashXRoute` client record (src/flashxroute.go line 42).
The injected `client` and `log` handles are never invoked by the call paths
(both build a fresh `http.Client{Timeout: rpc.Timeout}`), so they are
modelled as plain identifiers.  The `Headers` map is modelled as an
association list. -/
structure FlashXRoute where
  url : String
  client : Nat
  log : Nat
  Debug : Bool
  Headers : List (String × String)
  Timeout : Int
deriving DecidableEq

/-- Embeds the option `WithHttpClient` (sets only the `client` field). -/
def WithHttpClient (client : Nat) (rpc : FlashXRoute) : FlashXRoute :=
  { rpc with client := client }

/-- The observable outbound HTTP POST a call issues: target URL, headers in
the order the source adds them, serialized body (`none` when the body
construction panics), and the timeout of the freshly built `http.Client`. -/
structure OutgoingRequest where
  url : String
  headers : List (String × String)
  body : Option Json
  timeout : Int

/-- Embeds the request side of `Call` (lines 91-118): standard
`Content-Type`/`Accept` headers, then the caller-configured extra headers,
POSTed to `rpc.url` with a client built from `rpc.Timeout` alone. -/
def callRequest (rpc : FlashXRoute) (method : String) (params : List Json) : OutgoingRequest :=
  { url := rpc.url
    headers := [("Content-Type", "application/json"), ("Accept", "application/json")]
      ++ rpc.Headers
    body := rpcRequestBody method params
    timeout := rpc.Timeout }

/-- Embeds the request side of `CallWithBloxrouteAuthHeader` (lines
148-176): like `callRequest` plus the `Authorization` header. -/
def callWithBloxrouteAuthRequest (rpc : FlashXRoute) (method authHeader : String)
    (params : List Json) : OutgoingRequest :=
  { url := rpc.url
    headers := [("Content-Type", "application/json"), ("Accept", "application/json"),
                ("Authorization", authHeader)] ++ rpc.Headers
    body := rpcRequestBody method params
    timeout := rpc.Timeout }

/-- Embeds the response handling of `Call` (lines 135-144): decode the body
as the standard envelope, surface a present envelope error as the
`RpcError` value (the protocol-error channel), otherwise return the raw
`result` payload. -/
def callHandleBody (data : Json) : Except CallError (Option Json) :=
  match rpcResponseUnmarshal data with
  | .error e => .error (.decodeError e)
  | .ok resp =>
    match resp.Error with
    | some e => .error (.protocolError e.Code e.Message)
    | none => .ok resp.Result

/-- Envelope fallback of `CallWithBloxrouteAuthHeader` (lines 200-209):
standard-envelope parsing whose envelope-level error is wrapped as a relay
error carrying the envelope error message. -/
def callAuthEnvelope (data : Json) : Except CallError (Option Json) :=
  match rpcResponseUnmarshal data with
  | .error e => .error (.decodeError e)
  | .ok resp =>
    match resp.Error with
    | some e => .error (.relayError e.Message)
    | none => .ok resp.Result

/-- Embeds the response handling of `CallWithBloxrouteAuthHeader` (lines
193-209): first try the bespoke flat shape; when that unmarshal succeeds
with a non-empty `error` string, fail with the relay error at once;
otherwise fall through to standard-envelope parsing. -/
def callWithBloxrouteAuthHandleBody (data : Json) : Except CallError (Option Json) :=
  match relayErrorResponseUnmarshal data with
  | .ok errResp =>
    if errResp.error ≠ "" then .error (.relayError errResp.error)
    else callAuthEnvelope data
  | .error _ => callAuthEnvelope data

/-! ## Sync-status decoding (src/unnamed/part_000, `Syncing`) -/

/-- Embeds `Syncing` (part_000 line 51). -/
structure Syncing where
  IsSyncing : Bool
  StartingBlock : Int
  CurrentBlock : Int
  HighestBlock : Int
deriving DecidableEq

/-- Go `hexInt.UnmarshalJSON` (part_000 line 267): the raw bytes of the
value are stripped of surrounding quotes and handed to `ParseInt`; a JSON
number therefore has its decimal rendering re-read as hex digits, and any
other value fails inside `ParseInt`. -/
def hexIntUnmarshal : Json → Except String Int
  | .str s => ParseInt s
  | .num n => ParseInt (toString n)
  | .bool true => ParseInt "true"
  | .bool false => ParseInt "false"
  | .null => ParseInt "null"
  | _ => .error "invalid hex int"

/-- Go `json.Unmarshal` into `proxySyncing` (part_000 line 218): the three
block fields decode through `hexInt`; `IsSyncing` is tagged `json:"-"` and
never decoded.  The result is given directly as a `Syncing` record because
the source reinterprets the proxy memory as `Syncing` (same layout); the
reinterpretation is modelled as this explicit field-for-field identity. -/
def proxySyncingUnmarshal : Json → Except String Syncing
  | .null => .ok ⟨false, 0, 0, 0⟩
  | .obj fs => do
    let sb ← match jsonField fs "startingBlock" with
      | none => pure 0
      | some v => hexIntUnmarshal v
    let cb ← match jsonField fs "currentBlock" with
      | none => pure 0
      | some v => hexIntUnmarshal v
    let hb ← match jsonField fs "highestBlock" with
      | none => pure 0
      | some v => hexIntUnmarshal v
    pure ⟨false, sb, cb, hb⟩
  | _ => .error "cannot unmarshal into proxySyncing"

/-- Embeds `Syncing.UnmarshalJSON` (part_000 line 59): decode the proxy,
set `IsSyncing` to true, reinterpret as `Syncing`. -/
def syncingUnmarshal (j : Json) : Except String Syncing :=
  match proxySyncingUnmarshal j with
  | .error e => .error e
  | .ok proxy => .ok { proxy with IsSyncing := true }

/-- Embeds the result handling of `EthSyncing` (src/flashxroute.go lines
268-279).  The raw result is compared byte-for-byte against `false`
(`bytes.Equal(result, []byte("false"))`), which on a decoded raw message
holds exactly when the wire result is the boolean literal `false`; only
otherwise is the structured `Syncing` unmarshal attempted.  A nil raw
message (`none`) makes `json.Unmarshal` fail on empty input. -/
def ethSyncingDecode (result : Option Json) : Except String Syncing :=
  match result with
  | some (Json.bool false) => .ok ⟨false, 0, 0, 0⟩
  | some j => syncingUnmarshal j
  | none => .error "unexpected end of JSON input"

/-! ## Hash-only block decoding (src/unnamed/part_000 lines 312-362) -/

/-- Embeds `Transaction` (part_000 line 110).  `big.Int` values are
modelled as `Int`, nullable pointer fields as `Option Int`. -/
structure Transaction where
  Hash : String
  Nonce : Int
  BlockHash : String
  BlockNumber : Option Int
  TransactionIndex : Option Int
  From : String
  To : String
  Value : Int
  Gas : Int
  GasPrice : Int
  Input : String
deriving DecidableEq

/-- The Go zero value of `Transaction` (what `Transaction{Hash: h}` leaves
in every field other than `Hash`). -/
def zeroTransaction : Transaction :=
  ⟨"", 0, "", none, none, "", "", 0, 0, 0, ""⟩

/-- Embeds `proxyBlockWithoutTransactions` (part_000 line 312): the
hash-only wire shape, whose `Transactions` is a sequence of hash strings. -/
structure ProxyBlockWithoutTransactions where
  Number : Int
  Hash : String
  ParentHash : String
  Nonce : String
  Sha3Uncles : String
  LogsBloom : String
  TransactionsRoot : String
  StateRoot : String
  Miner : String
  Difficulty : Int
  TotalDifficulty : Int
  ExtraData : String
  Size : Int
  GasLimit : Int
  GasUsed : Int
  Timestamp : Int
  Uncles : List String
  Transactions : List String
deriving DecidableEq

/-- Embeds `Block` (part_000 line 197). -/
structure Block where
  Number : Int
  Hash : String
  ParentHash : String
  Nonce : String
  Sha3Uncles : String
  LogsBloom : String
  TransactionsRoot : String
  StateRoot : String
  Miner : String
  Difficulty : Int
  TotalDifficulty : Int
  ExtraData : String
  Size : Int
  GasLimit : Int
  GasUsed : Int
  Timestamp : Int
  Uncles : List String
  Transactions : List Transaction
deriving DecidableEq

/-- Embeds `proxyBlockWithoutTransactions.toBlock` (part_000 line 333):
every scalar field is copied, and each wire hash string becomes a
`Transaction` with only `Hash` populated (`Transaction{Hash: h}`); the
source's make-then-assign loop is the map below. -/
def ProxyBlockWithoutTransactions.toBlock (proxy : ProxyBlockWithoutTransactions) : Block :=
  { Number := proxy.Number
    Hash := proxy.Hash
    ParentHash := proxy.ParentHash
    Nonce := proxy.Nonce
    Sha3Uncles := proxy.Sha3Uncles
    LogsBloom := proxy.LogsBloom
    TransactionsRoot := proxy.TransactionsRoot
    StateRoot := proxy.StateRoot
    Miner := proxy.Miner
    Difficulty := proxy.Difficulty
    TotalDifficulty := proxy.TotalDifficulty
    ExtraData := proxy.ExtraData
    Size := proxy.Size
    GasLimit := proxy.GasLimit
    GasUsed := proxy.GasUsed
    Timestamp := proxy.Timestamp
    Uncles := proxy.Uncles
    Transactions := proxy.Transactions.map (fun h => { zeroTransaction with Hash := h }) }

/-! ## Block simulation transaction selector
(src/flashxroute.go lines 643-699, `BloxrouteSimulateBlock`) -/

/-- View of a go-ethereum transaction as consumed by the selector loop:
`sender` is the result of `types.Sender` (`none` when recovery fails,
mirroring `fromErr != nil`), `To` is `tx.To()` (`none` for contract
creation), and `rlpHex` is `TxToRlp tx`, the lowercase hex rendering of the
canonical RLP encoding (src/helpers.go line 46).  These three calls are the
whole interface the loop uses from the external go-ethereum library. -/
structure SimTx where
  sender : Option String
  To : Option String
  rlpHex : String
deriving DecidableEq

/-- Embeds the marker stripping of lines 671-676: Go evaluates `rlp[:2]`
first (panicking on a shorter string, modelled as `none`), drops 6
characters after a `b9` marker and 4 after `b8` (again panicking when the
string is too short for the slice), and passes anything else through. -/
def stripTxMarker (rlp : String) : Option String :=
  let cs := rlp.data
  if cs.length < 2 then none
  else if cs.take 2 = ['b', '9'] then
    if cs.length < 6 then none else some ⟨cs.drop 6⟩
  else if cs.take 2 = ['b', '8'] then
    if cs.length < 4 then none else some ⟨cs.drop 4⟩
  else some rlp

/-- The keep condition of the selector loop: a transaction survives both
skip tests (lines 652 and 661) exactly when neither its recovered sender
nor its declared recipient equals the block coinbase.  A failed sender
recovery (`sender = none`) never triggers the first skip. -/
def keepTx (coinbase : String) (tx : SimTx) : Bool :=
  !(tx.sender == some coinbase) && !(tx.To == some coinbase)

/-- Wire form of one selected transaction: stripped RLP hex with the `0x`
marker prepended (lines 669-679). -/
def encodeTx (tx : SimTx) : Option String :=
  (stripTxMarker tx.rlpHex).map (fun r => "0x" ++ r)

/-- Embeds the selector loop of `BloxrouteSimulateBlock` (lines 648-685):
in block order, skip a transaction whose recovered sender or declared
recipient is the coinbase, otherwise append its encoded form, and break
once `maxTx` transactions have been collected when `maxTx > 0`.  `none`
models the Go slicing panic inside the loop. -/
def simulateBlockTxs (coinbase : String) (maxTx : Int) :
    List SimTx → List String → Option (List String)
  | [], acc => some acc
  | tx :: rest, acc =>
    if tx.sender = some coinbase then
      simulateBlockTxs coinbase maxTx rest acc
    else if tx.To = some coinbase then
      simulateBlockTxs coinbase maxTx rest acc
    else
      match stripTxMarker tx.rlpHex with
      | none => none
      | some r =>
        let acc2 := acc ++ ["0x" ++ r]
        if maxTx > 0 ∧ (acc2.length : Int) = maxTx then some acc2
        else simulateBlockTxs coinbase maxTx rest acc2

/-- The transaction list `BloxrouteSimulateBlock` sends for simulation,
starting from the empty accumulator `txs := make([]string, 0)`. -/
def bloxrouteSelectTxs (coinbase : String) (maxTx : Int) (txs : List SimTx) :
    Option (List String) :=
  simulateBlockTxs coinbase maxTx txs []

/-! ## Theorems -/

theorem hexDigitVal_hexDigitChar : ∀ d, d < 16 → hexDigitVal (hexDigitChar d) = some d := by decide

theorem hexDigitChar_ne_sign : ∀ d, d < 16 → hexDigitChar d ≠ '-' ∧ hexDigitChar d ≠ '+' := by decide

theorem hexVals_map (ds : List Nat) (h : ∀ d ∈ ds, d < 16) :
    hexVals (ds.map hexDigitChar) = some ds := by
  induction ds with
  | nil => rfl
  | cons d t ih =>
    have hd := h d (by simp)
    have ht := ih (fun x hx => h x (by simp [hx]))
    simp [hexVals, hexDigitVal_hexDigitChar d hd, ht]

theorem foldl_base_reverse (b : Nat) (l : List Nat) :
    l.reverse.foldl (fun a d => a * b + d) 0 = Nat.ofDigits b l := by
  induction l with
  | nil => simp [Nat.ofDigits]
  | cons d t ih =>
    simp [Nat.ofDigits, List.foldl_append, ih]
    ring

theorem parseInt_intToHex (n : Nat) (h : n < 2 ^ 63) :
    ParseInt (IntToHex (n : Int)) = .ok (n : Int) := by
  have hx : IntToHex (n : Int) = "0x" ++ natToHexString n := by
    rw [IntToHex, if_neg (by exact not_lt.mpr (Int.natCast_nonneg n)), Int.natAbs_ofNat]
  by_cases h0 : n = 0
  · subst h0
    rw [hx]
    rfl
  · have hne : Nat.digits 16 n ≠ [] := Nat.digits_ne_nil_iff_ne_zero.mpr h0
    have hrev : (Nat.digits 16 n).reverse ≠ [] := by simpa using hne
    obtain ⟨d, L, hdL⟩ := List.exists_cons_of_ne_nil hrev
    have hmem : ∀ x ∈ (Nat.digits 16 n).reverse, x < 16 := by
      intro x hx2
      exact Nat.digits_lt_base (by norm_num) (List.mem_reverse.mp hx2)
    have hd16 : d < 16 := hmem d (by rw [hdL]; simp)
    have hchars : natHexChars n = hexDigitChar d :: L.map hexDigitChar := by
      rw [natHexChars, hdL]
      rfl
    have hstr : IntToHex (n : Int) = "0x" ++ (⟨natHexChars n⟩ : String) := by
      rw [hx, natToHexString, if_neg h0]
    have hdata : (IntToHex (n : Int)).data = '0' :: 'x' :: natHexChars n := by
      rw [hstr, String.data_append]
      rfl
    have htrim : trim0x ('0' :: 'x' :: natHexChars n) = natHexChars n := by
      rfl
    have hsign : splitSign (natHexChars n) = (false, natHexChars n) := by
      rw [hchars]
      simp only [splitSign]
      rw [if_neg (hexDigitChar_ne_sign d hd16).1, if_neg (hexDigitChar_ne_sign d hd16).2]
    have hvals : hexVals (natHexChars n) = some ((Nat.digits 16 n).reverse) := by
      rw [natHexChars]
      exact hexVals_map _ hmem
    unfold ParseInt
    rw [hdata, htrim, hsign]
    dsimp only
    rw [hchars]
    simp only [List.isEmpty_cons, Bool.false_eq_true, if_false]
    rw [← hchars, hvals]
    dsimp only
    rw [foldl_base_reverse, Nat.ofDigits_digits]
    rw [int64Range]
    simp only [Bool.false_eq_true, if_false]
    rw [if_pos (by omega)]

theorem bigDigitVal_hexDigitChar : ∀ d, d < 16 → bigDigitVal 16 (hexDigitChar d) = some d := by decide

theorem hexDigitChar_eq_zero_iff : ∀ d, d < 16 → (hexDigitChar d = '0' ↔ d = 0) := by decide

theorem digitRun_map (ds : List Nat) (h : ∀ d ∈ ds, d < 16) :
    digitRun 16 (ds.map hexDigitChar) = ds := by
  induction ds with
  | nil => rfl
  | cons d t ih =>
    have hd := h d (by simp)
    have ht := ih (fun x hx => h x (by simp [hx]))
    simp [digitRun, bigDigitVal_hexDigitChar d hd, ht]

theorem foldl_pair_split (bs : List Nat) (h : ∀ b ∈ bs, b < 256) (a : Nat) :
    (bs.flatMap (fun b => [b / 16, b % 16])).foldl (fun x d => x * 16 + d) a
      = bs.foldl (fun x b => x * 256 + b) a := by
  induction bs generalizing a with
  | nil => rfl
  | cons b t ih =>
    have hb := h b (by simp)
    have ht := ih (fun x hx => h x (by simp [hx]))
    simp only [List.flatMap_cons, List.foldl_append, List.foldl_cons, List.foldl_nil]
    rw [ht]
    congr 1
    omega

theorem parseBigInt_hexCharList (v0 : Nat) (vt : List Nat) (hv0 : v0 < 16)
    (hvt : ∀ v ∈ vt, v < 16) (hvtne : vt ≠ [])
    (s : String) (hs : s.data = '0' :: 'x' :: trimOneZero ((v0 :: vt).map hexDigitChar)) :
    ParseBigInt s = .ok (((v0 :: vt).foldl (fun a d => a * 16 + d) 0 : Nat) : Int) := by
  have hsign : ∀ T : List Char, splitSign ('0' :: 'x' :: T) = (false, '0' :: 'x' :: T) := by
    intro T
    simp [splitSign]
  have hbase : ∀ T : List Char, splitBase ('0' :: 'x' :: T) = (16, T) := by
    intro T
    simp [splitBase]
  obtain ⟨w, wt, hw⟩ := List.exists_cons_of_ne_nil hvtne
  by_cases hz : v0 = 0
  · have htrim : trimOneZero ((v0 :: vt).map hexDigitChar) = vt.map hexDigitChar := by
      subst hz
      simp only [List.map_cons, trimOneZero]
      rw [if_pos ((hexDigitChar_eq_zero_iff 0 (by norm_num)).mpr rfl)]
    have hrun : digitRun 16 (vt.map hexDigitChar) = vt := digitRun_map vt hvt
    unfold ParseBigInt
    rw [hs, htrim, hsign]
    dsimp only
    rw [hbase]
    dsimp only
    rw [hrun, hw]
    simp only [List.isEmpty_cons, Bool.false_eq_true, if_false]
    rw [← hw]
    subst hz
    simp
  · have htrim : trimOneZero ((v0 :: vt).map hexDigitChar)
        = hexDigitChar v0 :: vt.map hexDigitChar := by
      simp only [List.map_cons, trimOneZero]
      rw [if_neg (fun hc => hz ((hexDigitChar_eq_zero_iff v0 hv0).mp hc))]
    have hrun : digitRun 16 (hexDigitChar v0 :: vt.map hexDigitChar) = v0 :: vt := by
      have h2 : digitRun 16 ((v0 :: vt).map hexDigitChar) = v0 :: vt := by
        apply digitRun_map
        intro x hx
        rcases List.mem_cons.mp hx with h1 | h1
        · rw [h1]; exact hv0
        · exact hvt x h1
      simpa using h2
    unfold ParseBigInt
    rw [hs, htrim, hsign]
    dsimp only
    rw [hbase]
    dsimp only
    rw [hrun]
    simp only [List.isEmpty_cons, Bool.false_eq_true, if_false]

theorem parseBigInt_bigToHex (n : Nat) :
    ParseBigInt (BigToHex (n : Int)) = .ok (n : Int) := by
  by_cases h0 : n = 0
  · subst h0
    rfl
  · have habs : (n : Int).natAbs = n := Int.natAbs_ofNat n
    have hstr : BigToHex (n : Int) = "0x" ++ (⟨trimOneZero (bytesHexChars n)⟩ : String) := by
      rw [BigToHex, if_neg (fun hc => h0 (by exact_mod_cast hc)), habs]
    have hbne : natBytes n ≠ [] := by
      rw [natBytes]
      simpa using Nat.digits_ne_nil_iff_ne_zero.mpr h0
    obtain ⟨b, bt, hb⟩ := List.exists_cons_of_ne_nil hbne
    have hblt : ∀ x ∈ natBytes n, x < 256 := by
      intro x hx
      rw [natBytes] at hx
      exact Nat.digits_lt_base (by norm_num) (List.mem_reverse.mp hx)
    have hb256 : b < 256 := hblt b (by rw [hb]; simp)
    have hbt256 : ∀ x ∈ bt, x < 256 := fun x hx => hblt x (by rw [hb]; simp [hx])
    have hcharsmap : bytesHexChars n
        = ((natBytes n).flatMap (fun b => [b / 16, b % 16])).map hexDigitChar := by
      simp [bytesHexChars, List.map_flatMap]
    have hfold : ((natBytes n).flatMap (fun b => [b / 16, b % 16])).foldl
        (fun a d => a * 16 + d) 0 = n := by
      rw [foldl_pair_split _ hblt]
      rw [show natBytes n = (Nat.digits 256 n).reverse from rfl]
      rw [foldl_base_reverse, Nat.ofDigits_digits]
    have hvshape : (natBytes n).flatMap (fun b => [b / 16, b % 16])
        = b / 16 :: (b % 16 :: bt.flatMap (fun b => [b / 16, b % 16])) := by
      rw [hb]
      simp [List.flatMap_cons]
    have hvt16 : ∀ v ∈ b % 16 :: bt.flatMap (fun b => [b / 16, b % 16]), v < 16 := by
      intro v hv
      rcases List.mem_cons.mp hv with h1 | h1
      · omega
      · simp only [List.mem_flatMap] at h1
        obtain ⟨x, hx, hvx⟩ := h1
        have := hbt256 x hx
        simp only [List.mem_cons, List.mem_singleton] at hvx
        rcases hvx with h2 | h2 | h2
        · omega
        · omega
        · exact absurd h2 (by simp)
    have hmain := parseBigInt_hexCharList (b / 16) (b % 16 :: bt.flatMap (fun b => [b / 16, b % 16]))
      (by omega) hvt16 (by simp)
      (BigToHex (n : Int))
      (by
        rw [hstr, String.data_append]
        show '0' :: 'x' :: trimOneZero (bytesHexChars n) = _
        rw [hcharsmap, hvshape])
    rw [hmain, ← hvshape, hfold]

theorem simulateBlockTxs_zero_eq (coinbase : String) (txs : List SimTx) :
    ∀ acc : List String,
    (∀ tx ∈ txs, keepTx coinbase tx = true → (stripTxMarker tx.rlpHex).isSome) →
    simulateBlockTxs coinbase 0 txs acc
      = some (acc ++ (txs.filter (keepTx coinbase)).filterMap encodeTx) := by
  induction txs with
  | nil =>
    intro acc h
    simp [simulateBlockTxs]
  | cons tx rest ih =>
    intro acc h
    have hrest : ∀ t ∈ rest, keepTx coinbase t = true → (stripTxMarker t.rlpHex).isSome :=
      fun t ht hkt => h t (List.mem_cons_of_mem _ ht) hkt
    by_cases h1 : tx.sender = some coinbase
    · have hk : keepTx coinbase tx = false := by simp [keepTx, h1]
      rw [simulateBlockTxs, if_pos h1, List.filter_cons_of_neg (by simp [hk])]
      exact ih acc hrest
    · by_cases h2 : tx.To = some coinbase
      · have hk : keepTx coinbase tx = false := by simp [keepTx, h2]
        rw [simulateBlockTxs, if_neg h1, if_pos h2, List.filter_cons_of_neg (by simp [hk])]
        exact ih acc hrest
      · have hk : keepTx coinbase tx = true := by simp [keepTx, h1, h2]
        have hsome := h tx (by simp) hk
        obtain ⟨r, hr⟩ := Option.isSome_iff_exists.mp hsome
        have he : encodeTx tx = some ("0x" ++ r) := by rw [encodeTx, hr]; rfl
        rw [simulateBlockTxs, if_neg h1, if_neg h2, hr]
        dsimp only
        rw [if_neg (by simp)]
        rw [ih (acc ++ ["0x" ++ r]) hrest]
        rw [List.filter_cons_of_pos hk, List.filterMap_cons, he]
        simp

theorem simulateBlockTxs_acc_extends (coinbase : String) (maxTx : Int) (txs : List SimTx) :
    ∀ acc r, simulateBlockTxs coinbase maxTx txs acc = some r → ∃ t, r = acc ++ t := by
  induction txs with
  | nil =>
    intro acc r h
    rw [simulateBlockTxs] at h
    exact ⟨[], by simpa using (Option.some.injEq _ _ ▸ h).symm⟩
  | cons tx rest ih =>
    intro acc r h
    rw [simulateBlockTxs] at h
    by_cases h1 : tx.sender = some coinbase
    · rw [if_pos h1] at h
      exact ih acc r h
    · rw [if_neg h1] at h
      by_cases h2 : tx.To = some coinbase
      · rw [if_pos h2] at h
        exact ih acc r h
      · rw [if_neg h2] at h
        cases hstrip : stripTxMarker tx.rlpHex with
        | none => rw [hstrip] at h; exact absurd h (by simp)
        | some s =>
          rw [hstrip] at h
          dsimp only at h
          by_cases hc : maxTx > 0 ∧ ((acc ++ ["0x" ++ s]).length : Int) = maxTx
          · rw [if_pos hc] at h
            refine ⟨["0x" ++ s], ?_⟩
            have := (Option.some.injEq _ _ ▸ h)
            simpa using this.symm
          · rw [if_neg hc] at h
            obtain ⟨t, ht⟩ := ih (acc ++ ["0x" ++ s]) r h
            exact ⟨("0x" ++ s) :: t, by simpa [List.append_assoc] using ht⟩

theorem simulateBlockTxs_cap (coinbase : String) (k : Nat) (txs : List SimTx) :
    ∀ acc l, acc.length < k →
    simulateBlockTxs coinbase 0 txs acc = some l →
    simulateBlockTxs coinbase (k : Int) txs acc = some (l.take k) := by
  induction txs with
  | nil =>
    intro acc l hlen h
    rw [simulateBlockTxs] at h ⊢
    have hal : acc = l := by simpa using h
    subst hal
    rw [List.take_of_length_le (le_of_lt hlen)]
  | cons tx rest ih =>
    intro acc l hlen h
    rw [simulateBlockTxs] at h ⊢
    by_cases h1 : tx.sender = some coinbase
    · rw [if_pos h1] at h ⊢
      exact ih acc l hlen h
    · rw [if_neg h1] at h ⊢
      by_cases h2 : tx.To = some coinbase
      · rw [if_pos h2] at h ⊢
        exact ih acc l hlen h
      · rw [if_neg h2] at h ⊢
        cases hstrip : stripTxMarker tx.rlpHex with
        | none => rw [hstrip] at h; exact absurd h (by simp)
        | some s =>
          rw [hstrip] at h
          dsimp only at h ⊢
          rw [if_neg (by simp)] at h
          by_cases hc : (acc ++ ["0x" ++ s]).length = k
          · rw [if_pos ⟨by exact_mod_cast (show 0 < k by omega), by exact_mod_cast hc⟩]
            obtain ⟨t, ht⟩ := simulateBlockTxs_acc_extends coinbase 0 rest (acc ++ ["0x" ++ s]) l h
            subst ht
            rw [← hc, List.take_left]
          · rw [if_neg (by
              intro hcon
              exact hc (by exact_mod_cast hcon.2))]
            have hlt : (acc ++ ["0x" ++ s]).length < k := by
              simp only [List.length_append, List.length_cons, List.length_nil] at hc ⊢
              omega
            exact ih _ _ hlt h

/-- C1: the spec claims the serialized request body of `Call` and
`CallWithBloxrouteAuthHeader` carries `params` as the JSON array of all
supplied parameters in order.  The source sets `Params: params[0]`, so the
wire `params` value is the first parameter alone; evaluated here at the
two-parameter `eth_getBalance` call shape, the body holds the first
parameter and is not the claimed two-element array envelope. -/
theorem claim_c1_params_first_only :
    rpcRequestBody "eth_getBalance" [Json.str "0x1234", Json.str "latest"]
      = some (Json.obj [("id", Json.num 1), ("jsonrpc", Json.str "2.0"),
          ("method", Json.str "eth_getBalance"), ("params", Json.str "0x1234")])
    ∧ rpcRequestBody "eth_getBalance" [Json.str "0x1234", Json.str "latest"]
      ≠ some (Json.obj [("id", Json.num 1), ("jsonrpc", Json.str "2.0"),
          ("method", Json.str "eth_getBalance"),
          ("params", Json.arr [Json.str "0x1234", Json.str "latest"])]) :=
  ⟨rfl, by simp [rpcRequestBody]⟩

/-- C2: the claim says a zero-parameter invocation (as `EthSyncing` and
`Web3ClientVersion` perform) does not panic; in the source `params[0]` is
read unconditionally, so the request construction panics (modelled as
`none`) before any request is sent. -/
theorem claim_c2_zero_params_panics :
    (∀ method : String, rpcRequestBody method [] = none)
    ∧ rpcRequestBody "eth_syncing" [] = none
    ∧ rpcRequestBody "web3_clientVersion" [] = none :=
  ⟨fun _ => rfl, rfl, rfl⟩

/-- C3: on the authenticated call path, a body whose flat-shape decode
succeeds with a non-empty `error` string fails at once with the relay error
carrying exactly that message (the spec's example body is not even
envelope-shaped, witnessing that the envelope decode is never needed), and
when the flat shape is absent (the flat decode fails or yields an empty
string), the body is parsed as the standard envelope whose error surfaces
as a relay error — not a protocol error — carrying the envelope error
message. -/
theorem claim_c3_relay_error_precedence :
    (∀ (data : Json) (msg : String),
       relayErrorResponseUnmarshal data = .ok ⟨msg⟩ → msg ≠ "" →
       callWithBloxrouteAuthHandleBody data = .error (.relayError msg))
    ∧ (∀ (data : Json) (resp : RpcResponse) (e : RpcError),
       (relayErrorResponseUnmarshal data = .ok ⟨""⟩
         ∨ ∃ em, relayErrorResponseUnmarshal data = .error em) →
       rpcResponseUnmarshal data = .ok resp → resp.Error = some e →
       callWithBloxrouteAuthHandleBody data = .error (.relayError e.Message))
    ∧ callWithBloxrouteAuthHandleBody (Json.obj [("error", Json.str "block param must be a hex int")])
        = .error (.relayError "block param must be a hex int")
    ∧ (∃ em, rpcResponseUnmarshal (Json.obj [("error", Json.str "block param must be a hex int")])
        = .error em) := by
  refine ⟨?_, ?_, ?_, ?_⟩
  · intro data msg hflat hne
    unfold callWithBloxrouteAuthHandleBody
    rw [hflat]
    dsimp only
    rw [if_pos hne]
  · intro data resp e hflat henv herr
    have henvh : callAuthEnvelope data = .error (.relayError e.Message) := by
      unfold callAuthEnvelope
      rw [henv]
      dsimp only
      rw [herr]
    unfold callWithBloxrouteAuthHandleBody
    rcases hflat with hok | ⟨em, herrm⟩
    · rw [hok]
      dsimp only
      rw [if_neg (by simp)]
      exact henvh
    · rw [herrm]
      exact henvh
  · rfl
  · exact ⟨_, rfl⟩

theorem claim_c3_witness :
    (relayErrorResponseUnmarshal (Json.obj [("error", Json.str "boom")]) = .ok ⟨"boom"⟩
      ∧ ("boom" : String) ≠ ""
      ∧ callWithBloxrouteAuthHandleBody (Json.obj [("error", Json.str "boom")])
          = .error (.relayError "boom"))
    ∧ callWithBloxrouteAuthHandleBody
        (Json.obj [("id", Json.num 1), ("jsonrpc", Json.str "2.0"),
          ("error", Json.obj [("code", Json.num (-32601)), ("message", Json.str "busy")])])
        = .error (.relayError "busy") :=
  ⟨⟨rfl, by decide, claim_c3_relay_error_precedence.1 _ "boom" rfl (by decide)⟩,
   claim_c3_relay_error_precedence.2.1 _ ⟨1, "2.0", none, some ⟨-32601, "busy"⟩⟩ ⟨-32601, "busy"⟩
     (Or.inr ⟨_, rfl⟩) rfl rfl⟩

/-- C7: on the plain call path, a body that parses as the standard envelope
with a present (non-null) error fails with the protocol error carrying
exactly the envelope's code and message, and no result payload is returned;
the spec's `-32601` example evaluates accordingly. -/
theorem claim_c7_protocol_error :
    (∀ (data : Json) (resp : RpcResponse) (e : RpcError),
       rpcResponseUnmarshal data = .ok resp → resp.Error = some e →
       callHandleBody data = .error (.protocolError e.Code e.Message))
    ∧ callHandleBody (Json.obj [("id", Json.num 1), ("jsonrpc", Json.str "2.0"),
        ("result", Json.null),
        ("error", Json.obj [("code", Json.num (-32601)), ("message", Json.str "method not found")])])
        = .error (.protocolError (-32601) "method not found") := by
  constructor
  · intro data resp e henv herr
    unfold callHandleBody
    rw [henv]
    dsimp only
    rw [herr]
  · rfl

theorem claim_c7_witness :
    rpcResponseUnmarshal (Json.obj [("id", Json.num 1), ("jsonrpc", Json.str "2.0"),
        ("error", Json.obj [("code", Json.num 3), ("message", Json.str "execution reverted")])])
      = .ok ⟨1, "2.0", none, some ⟨3, "execution reverted"⟩⟩
    ∧ callHandleBody (Json.obj [("id", Json.num 1), ("jsonrpc", Json.str "2.0"),
        ("error", Json.obj [("code", Json.num 3), ("message", Json.str "execution reverted")])])
      = .error (.protocolError 3 "execution reverted") :=
  ⟨rfl, claim_c7_protocol_error.1 _ ⟨1, "2.0", none, some ⟨3, "execution reverted"⟩⟩
    ⟨3, "execution reverted"⟩ rfl rfl⟩

/-- C5: the selector skips a transaction whose recovered sender or declared
recipient equals the block coinbase and keeps every other transaction in
original block order (with `maxTx = 0`, no cap): the output is exactly the
filter of the block's transactions by the keep condition, encoded in order.
A transaction whose sender recovery failed is not skipped on that basis:
with `sender = none` and an ordinary recipient it is kept and emitted.  The
spec's scenario — coinbase `0xCAFE`, tx1 from the coinbase, tx2 to the
coinbase, tx3 ordinary, `maxTx = 0` — yields exactly tx3's encoded form,
regardless of the position of tx1 and tx2. -/
theorem claim_c5_selector_filter :
    (∀ (coinbase : String) (txs : List SimTx),
       (∀ tx ∈ txs, keepTx coinbase tx = true → (stripTxMarker tx.rlpHex).isSome) →
       bloxrouteSelectTxs coinbase 0 txs
         = some ((txs.filter (keepTx coinbase)).filterMap encodeTx))
    ∧ (∀ (coinbase : String) (tx : SimTx) (r : String),
       tx.sender = none → tx.To ≠ some coinbase → stripTxMarker tx.rlpHex = some r →
       bloxrouteSelectTxs coinbase 0 [tx] = some ["0x" ++ r])
    ∧ bloxrouteSelectTxs "0xCAFE" 0
        [⟨some "0xCAFE", some "0x1111", "f86f01"⟩,
         ⟨some "0x2222", some "0xCAFE", "f86f02"⟩,
         ⟨some "0x3333", some "0x4444", "f86f03"⟩] = some ["0xf86f03"]
    ∧ bloxrouteSelectTxs "0xCAFE" 0
        [⟨some "0x3333", some "0x4444", "f86f03"⟩,
         ⟨some "0xCAFE", some "0x1111", "f86f01"⟩,
         ⟨some "0x2222", some "0xCAFE", "f86f02"⟩] = some ["0xf86f03"] := by
  refine ⟨?_, ?_, by rfl, by rfl⟩
  · intro coinbase txs h
    exact simulateBlockTxs_zero_eq coinbase txs [] h
  · intro coinbase tx r hsender hto hstrip
    have h1 : ¬tx.sender = some coinbase := by rw [hsender]; simp
    rw [bloxrouteSelectTxs, simulateBlockTxs, if_neg h1, if_neg hto, hstrip]
    dsimp only
    rw [if_neg (by simp)]
    rfl

theorem claim_c5_witness :
    (∀ tx ∈ [(⟨none, some "0x4444", "f86f03"⟩ : SimTx)],
        keepTx "0xCAFE" tx = true → (stripTxMarker tx.rlpHex).isSome)
    ∧ bloxrouteSelectTxs "0xCAFE" 0 [(⟨none, some "0x4444", "f86f03"⟩ : SimTx)]
        = some (([(⟨none, some "0x4444", "f86f03"⟩ : SimTx)].filter
            (keepTx "0xCAFE")).filterMap encodeTx) :=
  ⟨by decide, claim_c5_selector_filter.1 "0xCAFE" [⟨none, some "0x4444", "f86f03"⟩] (by decide)⟩

/-- C6: for every selected transaction the emitted form is its canonical
lowercase-hex encoding after the fixed marker rule — a `b9` marker loses its
first 6 hex characters, a `b8` marker its first 4, any other leading pair
passes through unchanged — with `0x` prepended; and when `maxTx > 0` the
collection stops once `maxTx` transactions have been gathered, so the
output is the uncapped output truncated to `maxTx` entries. -/
theorem claim_c6_encoding_and_cap :
    (∀ s : String, s.data.take 2 = ['b', '9'] → 6 ≤ s.data.length →
        stripTxMarker s = some ⟨s.data.drop 6⟩)
    ∧ (∀ s : String, s.data.take 2 = ['b', '8'] → 4 ≤ s.data.length →
        stripTxMarker s = some ⟨s.data.drop 4⟩)
    ∧ (∀ s : String, 2 ≤ s.data.length →
        s.data.take 2 ≠ ['b', '9'] → s.data.take 2 ≠ ['b', '8'] →
        stripTxMarker s = some s)
    ∧ (∀ (coinbase : String) (tx : SimTx) (r : String),
        keepTx coinbase tx = true → stripTxMarker tx.rlpHex = some r →
        bloxrouteSelectTxs coinbase 0 [tx] = some ["0x" ++ r])
    ∧ (∀ (coinbase : String) (txs : List SimTx) (l : List String) (k : Int),
        0 < k → bloxrouteSelectTxs coinbase 0 txs = some l →
        bloxrouteSelectTxs coinbase k txs = some (l.take k.toNat)) := by
  refine ⟨?_, ?_, ?_, ?_, ?_⟩
  · intro s h9 hlen
    rw [stripTxMarker]
    rw [if_neg (by omega), if_pos h9, if_neg (by omega)]
  · intro s h8 hlen
    rw [stripTxMarker]
    rw [if_neg (by omega), if_neg (by rw [h8]; decide), if_pos h8, if_neg (by omega)]
  · intro s hlen h9 h8
    rw [stripTxMarker]
    rw [if_neg (by omega), if_neg h9, if_neg h8]
  · intro coinbase tx r hkeep hstrip
    have h1 : ¬tx.sender = some coinbase := by
      intro hc
      simp [keepTx, hc] at hkeep
    have h2 : ¬tx.To = some coinbase := by
      intro hc
      simp [keepTx, hc] at hkeep
    rw [bloxrouteSelectTxs, simulateBlockTxs, if_neg h1, if_neg h2, hstrip]
    dsimp only
    rw [if_neg (by simp)]
    rfl
  · intro coinbase txs l k hk h0
    have hknat : k = ((k.toNat : Nat) : Int) := (Int.toNat_of_nonneg (le_of_lt hk)).symm
    rw [bloxrouteSelectTxs, hknat]
    exact simulateBlockTxs_cap coinbase k.toNat txs [] l (by simp; omega) h0

theorem claim_c6_witness :
    ("b9aabbccdd12".data.take 2 = ['b', '9'] ∧ 6 ≤ "b9aabbccdd12".data.length
      ∧ stripTxMarker "b9aabbccdd12" = some ⟨"b9aabbccdd12".data.drop 6⟩)
    ∧ ((0 : Int) < 2
      ∧ bloxrouteSelectTxs "c" 0
          [(⟨none, none, "f86f01"⟩ : SimTx), ⟨none, none, "f86f02"⟩, ⟨none, none, "f86f03"⟩]
          = some ["0xf86f01", "0xf86f02", "0xf86f03"]
      ∧ bloxrouteSelectTxs "c" 2
          [(⟨none, none, "f86f01"⟩ : SimTx), ⟨none, none, "f86f02"⟩, ⟨none, none, "f86f03"⟩]
          = some (["0xf86f01", "0xf86f02", "0xf86f03"].take ((2 : Int)).toNat)) :=
  ⟨⟨by decide, by decide, claim_c6_encoding_and_cap.1 "b9aabbccdd12" (by decide) (by decide)⟩,
   ⟨by decide, by decide,
    claim_c6_encoding_and_cap.2.2.2.2 "c"
      [⟨none, none, "f86f01"⟩, ⟨none, none, "f86f02"⟩, ⟨none, none, "f86f03"⟩]
      ["0xf86f01", "0xf86f02", "0xf86f03"] 2 (by decide) (by decide)⟩⟩

/-- C8: when the wire result of the sync-status call is the boolean literal
`false`, the returned record has `IsSyncing = false` and all block fields
zero; the structured `Syncing` decode is never attempted — indeed it would
fail on this very body, while the call succeeds. -/
theorem claim_c8_syncing_false :
    ethSyncingDecode (some (Json.bool false)) = .ok ⟨false, 0, 0, 0⟩
    ∧ (∃ e, syncingUnmarshal (Json.bool false) = .error e) :=
  ⟨rfl, ⟨_, rfl⟩⟩

/-- C9: the hash-only block decoder maps the wire sequence of hash strings
to a `Transactions` sequence of the same length and order in which each
element carries the wire string in `Hash` and the Go zero value in every
other field. -/
theorem claim_c9_hash_only_block :
    ∀ proxy : ProxyBlockWithoutTransactions,
      proxy.toBlock.Transactions
          = proxy.Transactions.map (fun h => { zeroTransaction with Hash := h })
      ∧ proxy.toBlock.Transactions.length = proxy.Transactions.length := by
  intro proxy
  refine ⟨rfl, ?_⟩
  rw [ProxyBlockWithoutTransactions.toBlock]
  simp

/-- C10: the injected HTTP client is inert.  `WithHttpClient` changes only
the `client` field, and the observable behavior of both call paths — the
outgoing request (URL, headers, body, timeout, both call modes) and the
response handling (a function of the body alone) — is unchanged by it,
because both paths build a fresh `http.Client` from `Timeout` and never
read the `client` field. -/
theorem claim_c10_client_noninterference :
    ∀ (rpc : FlashXRoute) (c : Nat) (method authHeader : String) (params : List Json),
      callRequest (WithHttpClient c rpc) method params = callRequest rpc method params
      ∧ callWithBloxrouteAuthRequest (WithHttpClient c rpc) method authHeader params
          = callWithBloxrouteAuthRequest rpc method authHeader params
      ∧ WithHttpClient c rpc = { rpc with client := c } :=
  fun _ _ _ _ _ => ⟨rfl, rfl, rfl⟩

/-- C4: codec round-trip — every non-negative integer in the 64-bit signed
range survives `ParseInt ∘ IntToHex`, every non-negative integer survives
`ParseBigInt ∘ BigToHex`, and zero encodes to exactly `0x0` under both
encoders. -/
theorem claim_c4_codec_roundTrip :
    (∀ n : Nat, n < 2 ^ 63 → ParseInt (IntToHex (n : Int)) = .ok (n : Int))
    ∧ (∀ n : Nat, ParseBigInt (BigToHex (n : Int)) = .ok (n : Int))
    ∧ IntToHex 0 = "0x0" ∧ BigToHex 0 = "0x0" :=
  ⟨parseInt_intToHex, parseBigInt_bigToHex, rfl, rfl⟩

theorem claim_c4_witness :
    ((255 : Nat) < 2 ^ 63 ∧ ParseInt (IntToHex ((255 : Nat) : Int)) = .ok ((255 : Nat) : Int))
    ∧ ParseBigInt (BigToHex ((4095 : Nat) : Int)) = .ok ((4095 : Nat) : Int) :=
  ⟨⟨by norm_num, claim_c4_codec_roundTrip.1 255 (by norm_num)⟩,
   claim_c4_codec_roundTrip.2.1 4095⟩
